import Mathlib

/-!
Verification of the attribute-encoding layer of `aries-credx-framework-rs`.

The development shallowly embeds `src/encoding/mod.rs` (the generic
`AttributeEncoder` trait and its seven transforms) together with its two
backends:
* `src/encoding/bls381_fieldelem.rs` — a fixed-width prime-field element
  (48-byte buffer, amcl `MODBYTES`), modelled as `ZMod blsOrder` where
  `blsOrder` is the BLS12-381 curve (scalar-group) order;
* `src/encoding/rsa_native.rs` — an arbitrary-precision signed big integer
  (OpenSSL `BigNum`), modelled as `Int`.

External collaborators are modelled faithfully where their behavior is
observable by the encoder:
* the `bigdecimal` crate's exact `double` / `half` operations on
  arbitrary-precision decimals (`BigDec` below);
* the `chrono` crate's RFC3339 parser (`parse_from_rfc3339` below), as an
  executable parser over the canonical RFC3339 grammar it accepts;
* `num_bigint`'s `to_bytes_be` (minimal big-endian magnitude plus a sign).
-/

/-! ## Bytes and big-endian numbers -/

/-- A byte sequence; each entry is a byte value (the Rust `Vec<u8>`). -/
abbrev Bytes := List Nat

/-- Interpret a byte sequence as a big-endian natural number
(OpenSSL `BN_bin2bn`, amcl `from_bytes`). -/
def beNat (bs : Bytes) : Nat := bs.foldl (fun acc b => acc * 256 + b) 0

/-- Fixed-width big-endian byte representation: `natToBeFixed k w` is the
`k`-byte big-endian encoding of `w % 256^k` (Rust `u64::to_be_bytes` is
`natToBeFixed 8`). -/
def natToBeFixed : Nat → Nat → Bytes
  | 0, _ => []
  | k + 1, w => natToBeFixed k (w / 256) ++ [w % 256]

/-- Minimal big-endian magnitude bytes of a natural number
(`num_bigint::BigInt::to_bytes_be`; `0` yields `[0]`). -/
def beBytesOfNat (n : Nat) : Bytes :=
  if n < 256 then [n] else beBytesOfNat (n / 256) ++ [n % 256]
decreasing_by
  exact Nat.div_lt_self (by omega) (by omega)

/-! ## The `bigdecimal` model

A `BigDecimal` is a pair of an arbitrary-precision signed integer and a
decimal exponent ("scale"): the represented value is
`intVal * 10 ^ (-scale)`.  `double` and `half` are the crate's exact
doubling and halving: halving an odd integer multiplies by 5 and bumps the
scale instead of losing the low bit. -/

/-- Model of `bigdecimal::BigDecimal`: value `intVal * 10 ^ (-scale)`. -/
structure BigDec where
  intVal : Int
  scale : Int
deriving DecidableEq

/-- `BigDecimal::double`: multiply the unscaled integer by 2 (the zero
decimal is returned unchanged). -/
def doubleD (b : BigDec) : BigDec :=
  if b.intVal = 0 then b else { intVal := b.intVal * 2, scale := b.scale }

/-- `BigDecimal::half`: exact halving — an even unscaled integer is divided
by 2 in place, an odd one is multiplied by 5 with the scale bumped by 1. -/
def halfD (b : BigDec) : BigDec :=
  if b.intVal = 0 then b
  else if b.intVal % 2 = 0 then { intVal := b.intVal / 2, scale := b.scale }
  else { intVal := b.intVal * 5, scale := b.scale + 1 }

/-- Negation of a decimal (`BigDecimal::from(-v) = -BigDecimal::from(v)`). -/
def BigDec.negD (b : BigDec) : BigDec := { intVal := -b.intVal, scale := b.scale }

/-- The `while d > 15 { b = b.half(); d -= 1 }` loop of `encode_from_f64`:
the counter `d` starts from the scaled decimal's exponent and is decremented
once per halving. -/
def halfLoop (b : BigDec) (d : Int) : BigDec :=
  if 15 < d then halfLoop (halfD b) (d - 1) else b
termination_by (d - 15).toNat
decreasing_by
  simp_wf
  omega

/-! ## The floating-point input

`encode_from_f64` observes its `f64` argument only through (a) its IEEE 754
class, (b) its sign when infinite, and (c) the arbitrary-precision decimal
`bigdecimal::BigDecimal::from(value)` when it is a normal number.  A float
is therefore embedded as exactly that data.  IEEE negation flips the sign
bit, preserving the class, and the decimal conversion is an odd function,
so negation acts on the embedding as `F64.neg`. -/

/-- A 64-bit float as observed by `encode_from_f64`: its class, its sign
when infinite, and its exact decimal conversion when finite. -/
inductive F64 where
  | nan
  | subnormal (dec : BigDec)
  | zero
  | inf (positive : Bool)
  | normal (dec : BigDec)
deriving DecidableEq

/-- IEEE 754 negation on the embedding: the class is preserved (for
`zero`, `-0.0` still classifies as `Zero`), the sign of an infinity flips,
and the decimal conversion of a finite value is negated. -/
def F64.neg : F64 → F64
  | .nan => .nan
  | .subnormal d => .subnormal d.negD
  | .zero => .zero
  | .inf positive => .inf (!positive)
  | .normal d => .normal d.negD

/-! ## The `AttributeEncoder` trait -/

/-- The `AttributeEncoder` trait of `src/encoding/mod.rs`: an output type
with `Add`, `Sub`, `Neg` and `From<u64>`, plus the three required methods
`max`, `zero_center` and `from_vec`. -/
structure AttributeEncoder (α : Type) where
  add : α → α → α
  sub : α → α → α
  neg : α → α
  ofU64 : Nat → α
  max : α
  zero_center : α
  from_vec : Bytes → α

/-- `BITS_IN_ZERO`: how many bits are used to shift 1 to get to zero
centering. -/
def BITS_IN_ZERO : Nat := 254

/-! ## Generic transforms (default methods of the trait) -/

/-- `encoded_null`: `from_vec` of 32 zero bytes with the final byte 7. -/
def encoded_null {α : Type} (E : AttributeEncoder α) : Except String α :=
  let null := (List.replicate 32 0).set 31 7
  .ok (E.from_vec null)

/-- Cast of a signed 64-bit integer to `u64` (`as u64`): the value modulo
`2^64`, i.e. the two's-complement bit pattern read as unsigned. -/
def u64OfInt (t : Int) : Nat := (t % 18446744073709551616).toNat

/-- `isize::to_be_bytes` for a 64-bit `isize`: the 8-byte big-endian
two's-complement representation. -/
def isizeToBeBytes (v : Int) : Bytes := natToBeFixed 8 (u64OfInt v)

/-- Value computed by `encode_from_f64` (the expression inside `Ok(...)`).
The normal branch doubles the decimal `BITS_IN_ZERO` times, runs the
counter-based halving loop seeded with the decimal's exponent, and then
dispatches on the sign of the resulting unscaled integer: zero gives
`zero_center()`, a positive integer gives `from_vec` of its big-endian
magnitude bytes, a negative one gives `-from_vec(bytes) + zero_center()`. -/
def encode_from_f64_val {α : Type} (E : AttributeEncoder α) : F64 → α
  | .nan => E.sub E.max (E.ofU64 8)
  | .subnormal _ => E.sub E.max (E.ofU64 8)
  | .zero => E.zero_center
  | .inf positive =>
    if positive then E.sub E.max (E.ofU64 9) else E.ofU64 8
  | .normal dec =>
    let b := doubleD^[BITS_IN_ZERO] dec
    let d := b.scale
    let b2 := halfLoop b d
    let bi := b2.intVal
    if bi = 0 then E.zero_center
    else if 0 < bi then E.from_vec (beBytesOfNat bi.natAbs)
    else E.add (E.neg (E.from_vec (beBytesOfNat bi.natAbs))) E.zero_center

/-- `encode_from_f64`: total; always returns `Ok`. -/
def encode_from_f64 {α : Type} (E : AttributeEncoder α) (v : F64) :
    Except String α :=
  .ok (encode_from_f64_val E v)

/-- Value computed by `encode_from_isize` (64-bit `isize`): negative values
other than `isize::MIN` are `zero_center() - from((-v) as u64)`,
`isize::MIN` is `zero_center() - from_vec(v.to_be_bytes())`, and
non-negative values are `zero_center() + from(v as u64)`. -/
def encode_from_isize_val {α : Type} (E : AttributeEncoder α) (v : Int) : α :=
  if v < 0 then
    if v = -(2 ^ 63) then
      E.sub E.zero_center (E.from_vec (isizeToBeBytes v))
    else
      E.sub E.zero_center (E.ofU64 (-v).toNat)
  else
    E.add E.zero_center (E.ofU64 v.toNat)

/-- `encode_from_isize`: total; always returns `Ok`. -/
def encode_from_isize {α : Type} (E : AttributeEncoder α) (v : Int) :
    Except String α :=
  .ok (encode_from_isize_val E v)

/-- `encode_from_usize` (64-bit `usize`):
`zero_center() + from_vec((v as u64).to_be_bytes())`. -/
def encode_from_usize {α : Type} (E : AttributeEncoder α) (v : Nat) :
    Except String α :=
  .ok (E.add E.zero_center (E.from_vec (natToBeFixed 8 v)))

/-- `encode_from_utf8_as_hash`: `from_vec` of the 32-byte digest of the
UTF-8 bytes of the input, for a pluggable hash `digest`. -/
def encode_from_utf8_as_hash {α : Type} (E : AttributeEncoder α)
    (digest : Bytes → Bytes) (msg : Bytes) : Except String α :=
  .ok (E.from_vec (digest msg))

/-! ## The `chrono` model

`DateTime::parse_from_rfc3339` accepts the canonical RFC3339 grammar
`YYYY-MM-DDTHH:MM:SS[.fff...](Z|±HH:MM)` (a `T`/`t` separator, a `Z`/`z` zulu
marker or a colon-separated numeric offset, an optional fractional-second
part with at least one digit).  A parsed date-time is embedded by its UTC
Unix timestamp in whole seconds (`DateTime::timestamp`) together with its
subsecond nanoseconds, which is exactly the data the two date transforms
observe. -/

/-- A parsed RFC3339 date-time: UTC Unix epoch seconds (the value of
`DateTime::timestamp`) and subsecond nanoseconds. -/
structure RfcDateTime where
  secs : Int
  nanos : Nat
deriving DecidableEq

/-- `DateTime::timestamp`: whole seconds since the Unix epoch. -/
def RfcDateTime.timestamp (dt : RfcDateTime) : Int := dt.secs

/-- The numeric value of an ASCII digit, or `none`. -/
def digitVal (c : Char) : Option Nat :=
  if c.isDigit then some (c.toNat - 48) else none

/-- Parse exactly `k` ASCII digits into a number (most significant first),
returning the value and the remaining characters. -/
def parseNDigits : Nat → Nat → List Char → Option (Nat × List Char)
  | 0, acc, cs => some (acc, cs)
  | k + 1, acc, cs =>
    match cs with
    | [] => none
    | c :: rest =>
      match digitVal c with
      | none => none
      | some d => parseNDigits k (acc * 10 + d) rest

/-- Expect a single literal character. -/
def expectChar (c : Char) : List Char → Option (List Char)
  | [] => none
  | x :: rest => if x = c then some rest else none

/-- The date/time separator: `chrono` accepts an uppercase or a lowercase
`t` (RFC3339 permits both). -/
def expectSep : List Char → Option (List Char)
  | [] => none
  | x :: rest => if x = 'T' ∨ x = 't' then some rest else none

/-- Collect a maximal run of ASCII digits. -/
def takeDigits : List Char → (List Nat × List Char)
  | [] => ([], [])
  | c :: rest =>
    match digitVal c with
    | some d =>
      let (ds, r) := takeDigits rest
      (d :: ds, r)
    | none => ([], c :: rest)

/-- Nanoseconds denoted by a list of fractional-second digits: the first
nine digits are significant, later digits are consumed but ignored. -/
def nanosOfDigits (ds : List Nat) : Nat :=
  let ds9 := ds.take 9
  (ds9.foldl (fun acc d => acc * 10 + d) 0) * 10 ^ (9 - ds9.length)

/-- Optional fractional-second part: a dot followed by at least one digit,
or nothing. -/
def parseFracPart : List Char → Option (Nat × List Char)
  | '.' :: rest =>
    match takeDigits rest with
    | ([], _) => none
    | (ds, r) => some (nanosOfDigits ds, r)
  | cs => some (0, cs)

/-- Timezone offset: `Z`/`z`, or `±HH:MM`; returns the offset in seconds
east of UTC. -/
def parseOffset : List Char → Option (Int × List Char)
  | [] => none
  | 'Z' :: rest => some (0, rest)
  | 'z' :: rest => some (0, rest)
  | c :: rest =>
    if c = '+' ∨ c = '-' then
      match parseNDigits 2 0 rest with
      | none => none
      | some (oh, r1) =>
        match expectChar ':' r1 with
        | none => none
        | some r2 =>
          match parseNDigits 2 0 r2 with
          | none => none
          | some (om, r3) =>
            if oh ≤ 23 ∧ om ≤ 59 then
              let secs : Int := (oh * 3600 + om * 60 : Nat)
              some (if c = '-' then -secs else secs, r3)
            else none
    else none

/-- Gregorian leap-year predicate. -/
def isLeapYear (y : Nat) : Bool :=
  y % 4 == 0 && (y % 100 != 0 || y % 400 == 0)

/-- Days in a given month of a given year. -/
def daysInMonth (y m : Nat) : Nat :=
  if m = 2 then (if isLeapYear y then 29 else 28)
  else if m = 4 ∨ m = 6 ∨ m = 9 ∨ m = 11 then 30
  else 31

/-- Cumulative day count before the first of month `m`. -/
def cumDaysBeforeMonth (leap : Bool) (m : Nat) : Nat :=
  let base :=
    if m = 1 then 0 else if m = 2 then 31 else if m = 3 then 59
    else if m = 4 then 90 else if m = 5 then 120 else if m = 6 then 151
    else if m = 7 then 181 else if m = 8 then 212 else if m = 9 then 243
    else if m = 10 then 273 else if m = 11 then 304 else 334
  if leap ∧ 3 ≤ m then base + 1 else base

/-- Days from the Unix epoch (1970-01-01) to the civil date `y-m-d` in the
proleptic Gregorian calendar. -/
def daysFromYMD (y m d : Nat) : Int :=
  let yi : Int := y
  365 * (yi - 1) + Int.fdiv (yi - 1) 4 - Int.fdiv (yi - 1) 100
    + Int.fdiv (yi - 1) 400
    + (cumDaysBeforeMonth (isLeapYear y) m : Int) + ((d : Int) - 1) - 719162

/-- The `chrono` RFC3339 parser on a character list: date, `T`/`t`, time,
optional fraction, offset, end of input; all fields range-checked.  A
leap-second `60` is accepted the way `chrono` represents it: as second 59
with an extra `10^9` nanoseconds. -/
def parseRfcChars (cs : List Char) : Option RfcDateTime :=
  match parseNDigits 4 0 cs with
  | none => none
  | some (y, cs) =>
    match expectChar '-' cs with
    | none => none
    | some cs =>
      match parseNDigits 2 0 cs with
      | none => none
      | some (mo, cs) =>
        match expectChar '-' cs with
        | none => none
        | some cs =>
          match parseNDigits 2 0 cs with
          | none => none
          | some (da, cs) =>
            match expectSep cs with
            | none => none
            | some cs =>
              match parseNDigits 2 0 cs with
              | none => none
              | some (ho, cs) =>
                match expectChar ':' cs with
                | none => none
                | some cs =>
                  match parseNDigits 2 0 cs with
                  | none => none
                  | some (mi, cs) =>
                    match expectChar ':' cs with
                    | none => none
                    | some cs =>
                      match parseNDigits 2 0 cs with
                      | none => none
                      | some (se, cs) =>
                        match parseFracPart cs with
                        | none => none
                        | some (nanos, cs) =>
                          match parseOffset cs with
                          | none => none
                          | some (off, cs) =>
                            if cs = [] ∧ 1 ≤ mo ∧ mo ≤ 12 ∧ 1 ≤ da
                                ∧ da ≤ daysInMonth y mo ∧ ho ≤ 23
                                ∧ mi ≤ 59 ∧ se ≤ 60 then
                              let se' := if se = 60 then 59 else se
                              let nanos' :=
                                if se = 60 then nanos + 1000000000 else nanos
                              some
                                { secs := daysFromYMD y mo da * 86400
                                    + (ho * 3600 + mi * 60 + se' : Nat) - off
                                  nanos := nanos' }
                            else none

/-- `DateTime::parse_from_rfc3339`. -/
def parse_from_rfc3339 (s : String) : Option RfcDateTime :=
  parseRfcChars s.data

/-- `chrono::Duration::num_days` of the signed duration between two parsed
date-times: the whole-day difference, truncated toward zero. -/
def numDaysBetween (a b : RfcDateTime) : Int :=
  Int.tdiv ((a.secs - b.secs) * 1000000000 + ((a.nanos : Int) - (b.nanos : Int)))
    86400000000000

/-- `encode_from_rfc3339_as_unixtimestamp`: parse, then
`zero_center() + from(timestamp as u64)`. -/
def encode_from_rfc3339_as_unixtimestamp {α : Type} (E : AttributeEncoder α)
    (s : String) : Except String α :=
  match parse_from_rfc3339 s with
  | none => .error "parse error"
  | some dt => .ok (E.add E.zero_center (E.ofU64 (u64OfInt dt.timestamp)))

/-- `encode_from_rfc3339_as_dayssince1900`: parse the input and the fixed
reference instant, then `zero_center() + from(num_days as u64)`. -/
def encode_from_rfc3339_as_dayssince1900 {α : Type} (E : AttributeEncoder α)
    (s : String) : Except String α :=
  match parse_from_rfc3339 s with
  | none => .error "parse error"
  | some dt =>
    match parse_from_rfc3339 "1900-01-01T00:00:00.000+00:00" with
    | none => .error "parse error"
    | some base =>
      .ok (E.add E.zero_center (E.ofU64 (u64OfInt (numDaysBetween dt base))))

/-! ## The two backends -/

/-- The BLS12-381 curve (scalar-group) order: the modulus of the
`amcl_wrapper` `FieldElement` backend. -/
def blsOrder : Nat :=
  52435875175126190479447740508185965837690552500527637822603658699938581184513

/-- `amcl_wrapper::constants::FieldElement_SIZE`: the fixed byte width of
the field-element backend; with the `bls381` feature this is
`MODBYTES = 48` (BLS12-381 BIGs are 384-bit). -/
def FieldElement_SIZE : Nat := 48

/-- The width normalization of `bls381_fieldelem.rs::from_vec`: left-pad a
short byte sequence with zero bytes, keep only the leading
`FieldElement_SIZE` bytes of a long one. -/
def normalizeBytes (bytes : Bytes) : Bytes :=
  if bytes.length < FieldElement_SIZE then
    List.replicate (FieldElement_SIZE - bytes.length) 0 ++ bytes
  else if FieldElement_SIZE < bytes.length then
    bytes.take FieldElement_SIZE
  else bytes

/-- The `FieldElement` backend (`bls381_fieldelem.rs`): residues modulo the
curve order; `max` is `FieldElement::from(CurveOrder)`, `zero_center` is
`1 <<< 254`, `from_vec` normalizes the width and reads big-endian bytes. -/
def fieldElemEncoder : AttributeEncoder (ZMod blsOrder) where
  add := fun a b => a + b
  sub := fun a b => a - b
  neg := fun a => -a
  ofU64 := fun w => ((w : Nat) : ZMod blsOrder)
  max := ((blsOrder : Nat) : ZMod blsOrder)
  zero_center := ((2 ^ BITS_IN_ZERO : Nat) : ZMod blsOrder)
  from_vec := fun bytes => ((beNat (normalizeBytes bytes) : Nat) : ZMod blsOrder)

/-- The `BigNumber` backend (`rsa_native.rs`): OpenSSL arbitrary-precision
signed integers; `max` is the 32-byte all-`0xFF` value, `zero_center` sets
bit 254 of zero, `from_vec` reads big-endian bytes with no width
normalization, `From<u64>` reads the 8 big-endian bytes of the value. -/
def bigNumberEncoder : AttributeEncoder Int where
  add := fun a b => a + b
  sub := fun a b => a - b
  neg := fun a => -a
  ofU64 := fun w => (beNat (natToBeFixed 8 w) : Int)
  max := (beNat (List.replicate 32 255) : Int)
  zero_center := ((2 ^ BITS_IN_ZERO : Nat) : Int)
  from_vec := fun bytes => (beNat bytes : Int)

/-! ## Basic byte lemmas -/

theorem beNat_append_singleton (bs : Bytes) (b : Nat) :
    beNat (bs ++ [b]) = beNat bs * 256 + b := by
  simp [beNat, List.foldl_append]

theorem foldl_replicate_zero (k : Nat) :
    List.foldl (fun acc b => acc * 256 + b) 0 (List.replicate k 0) = 0 := by
  induction k with
  | zero => rfl
  | succ n ih => simpa [List.replicate_succ] using ih

theorem beNat_replicate_zero_append (k : Nat) (bs : Bytes) :
    beNat (List.replicate k 0 ++ bs) = beNat bs := by
  simp [beNat, List.foldl_append, foldl_replicate_zero]

theorem natToBeFixed_length (k w : Nat) : (natToBeFixed k w).length = k := by
  induction k generalizing w with
  | zero => rfl
  | succ n ih => simp [natToBeFixed, ih]

theorem mod_mul_256 (w M : Nat) (hM : 0 < M) :
    w % (256 * M) = 256 * (w / 256 % M) + w % 256 := by
  conv_lhs => rw [← Nat.div_add_mod w 256]
  rw [Nat.add_mod, Nat.mul_mod_mul_left]
  have h1 : w / 256 % M < M := Nat.mod_lt _ hM
  have h2 : w % 256 < 256 := Nat.mod_lt _ (by omega)
  have h3 : (w % 256) % (256 * M) = w % 256 :=
    Nat.mod_eq_of_lt (by nlinarith)
  rw [h3]
  exact Nat.mod_eq_of_lt (by nlinarith)

theorem beNat_natToBeFixed (k w : Nat) :
    beNat (natToBeFixed k w) = w % 256 ^ k := by
  induction k generalizing w with
  | zero => simp [natToBeFixed, beNat, Nat.mod_one]
  | succ n ih =>
    rw [natToBeFixed, beNat_append_singleton, ih]
    have h256 : (256 : Nat) ^ (n + 1) = 256 * 256 ^ n := by ring
    rw [h256, mod_mul_256 w (256 ^ n) (Nat.pos_pow_of_pos n (by omega))]
    ring

/-! ## Pipeline lemmas for the decimal (f64) path -/

theorem doubleD_negD (b : BigDec) : doubleD b.negD = (doubleD b).negD := by
  by_cases h : b.intVal = 0
  · simp [doubleD, BigDec.negD, h]
  · have h' : ¬(-b.intVal = 0) := by omega
    simp [doubleD, BigDec.negD, h, h']

theorem halfD_negD (b : BigDec) : halfD b.negD = (halfD b).negD := by
  by_cases h : b.intVal = 0
  · simp [halfD, BigDec.negD, h]
  · have h' : ¬(-b.intVal = 0) := by omega
    by_cases he : b.intVal % 2 = 0
    · have he' : -b.intVal % 2 = 0 := by omega
      have hd : -b.intVal / 2 = -(b.intVal / 2) := by omega
      simp [halfD, BigDec.negD, h, h', he, he', hd]
    · have he' : ¬(-b.intVal % 2 = 0) := by omega
      simp [halfD, BigDec.negD, h, h', he, he']

theorem doubleD_scale (b : BigDec) : (doubleD b).scale = b.scale := by
  by_cases h : b.intVal = 0 <;> simp [doubleD, h]

theorem negD_scale (b : BigDec) : b.negD.scale = b.scale := rfl

theorem doubleD_iterate_negD (n : Nat) (b : BigDec) :
    doubleD^[n] b.negD = (doubleD^[n] b).negD := by
  induction n generalizing b with
  | zero => rfl
  | succ k ih =>
    rw [Function.iterate_succ_apply, Function.iterate_succ_apply,
      doubleD_negD, ih]

theorem halfD_iterate_negD (n : Nat) (b : BigDec) :
    halfD^[n] b.negD = (halfD^[n] b).negD := by
  induction n generalizing b with
  | zero => rfl
  | succ k ih =>
    rw [Function.iterate_succ_apply, Function.iterate_succ_apply,
      halfD_negD, ih]

theorem doubleD_intVal_ne_zero (b : BigDec) (h : b.intVal ≠ 0) :
    (doubleD b).intVal ≠ 0 := by
  simp only [doubleD, h, if_false]
  simpa using h

theorem halfD_intVal_ne_zero (b : BigDec) (h : b.intVal ≠ 0) :
    (halfD b).intVal ≠ 0 := by
  by_cases he : b.intVal % 2 = 0
  · simp only [halfD, h, if_false, he, if_true]
    intro hc
    omega
  · simp only [halfD, h, if_false, he]
    intro hc
    omega

theorem doubleD_iterate_intVal_ne_zero (n : Nat) (b : BigDec)
    (h : b.intVal ≠ 0) : (doubleD^[n] b).intVal ≠ 0 := by
  induction n generalizing b with
  | zero => exact h
  | succ k ih =>
    rw [Function.iterate_succ_apply]
    exact ih _ (doubleD_intVal_ne_zero b h)

theorem halfD_iterate_intVal_ne_zero (n : Nat) (b : BigDec)
    (h : b.intVal ≠ 0) : (halfD^[n] b).intVal ≠ 0 := by
  induction n generalizing b with
  | zero => exact h
  | succ k ih =>
    rw [Function.iterate_succ_apply]
    exact ih _ (halfD_intVal_ne_zero b h)

theorem halfLoop_eq_iterate (b : BigDec) (d : Int) :
    halfLoop b d = halfD^[(d - 15).toNat] b := by
  generalize hn : (d - 15).toNat = n
  induction n generalizing b d with
  | zero =>
    rw [halfLoop]
    have hd : ¬15 < d := by omega
    simp [hd]
  | succ k ih =>
    rw [halfLoop]
    have h15 : 15 < d := by omega
    have hk : (d - 1 - 15).toNat = k := by omega
    simp only [h15, if_true]
    rw [ih _ _ hk, Function.iterate_succ_apply]

theorem encode_f64_normal_eq {α : Type} (E : AttributeEncoder α) (d : BigDec) :
    encode_from_f64_val E (.normal d) =
      if (halfLoop (doubleD^[BITS_IN_ZERO] d)
            (doubleD^[BITS_IN_ZERO] d).scale).intVal = 0 then
        E.zero_center
      else if 0 < (halfLoop (doubleD^[BITS_IN_ZERO] d)
            (doubleD^[BITS_IN_ZERO] d).scale).intVal then
        E.from_vec (beBytesOfNat (halfLoop (doubleD^[BITS_IN_ZERO] d)
          (doubleD^[BITS_IN_ZERO] d).scale).intVal.natAbs)
      else
        E.add (E.neg (E.from_vec (beBytesOfNat (halfLoop
          (doubleD^[BITS_IN_ZERO] d)
          (doubleD^[BITS_IN_ZERO] d).scale).intVal.natAbs))) E.zero_center :=
  rfl

theorem pipeline_negD (d : BigDec) :
    halfLoop (doubleD^[BITS_IN_ZERO] d.negD)
        (doubleD^[BITS_IN_ZERO] d.negD).scale
      = (halfLoop (doubleD^[BITS_IN_ZERO] d)
          (doubleD^[BITS_IN_ZERO] d).scale).negD := by
  rw [doubleD_iterate_negD, negD_scale, halfLoop_eq_iterate,
    halfLoop_eq_iterate, halfD_iterate_negD]

theorem pipeline_intVal_ne_zero (d : BigDec) (h : d.intVal ≠ 0) :
    (halfLoop (doubleD^[BITS_IN_ZERO] d)
      (doubleD^[BITS_IN_ZERO] d).scale).intVal ≠ 0 := by
  rw [halfLoop_eq_iterate]
  exact halfD_iterate_intVal_ne_zero _ _
    (doubleD_iterate_intVal_ne_zero _ _ h)

theorem c1_aux {α : Type} [AddCommGroup α] (E : AttributeEncoder α)
    (hadd : ∀ a b, E.add a b = a + b) (hneg : ∀ a, E.neg a = -a)
    (d : BigDec) (h : d.intVal ≠ 0) :
    encode_from_f64_val E (.normal d)
        + encode_from_f64_val E (F64.neg (.normal d)) = E.zero_center := by
  show encode_from_f64_val E (.normal d)
      + encode_from_f64_val E (.normal d.negD) = E.zero_center
  rw [encode_f64_normal_eq, encode_f64_normal_eq, pipeline_negD]
  set p := halfLoop (doubleD^[BITS_IN_ZERO] d)
    (doubleD^[BITS_IN_ZERO] d).scale with hp
  have hne := pipeline_intVal_ne_zero d h
  rw [← hp] at hne
  have hnegI : p.negD.intVal = -p.intVal := rfl
  have hnegAbs : p.negD.intVal.natAbs = p.intVal.natAbs := by
    simp [BigDec.negD]
  rw [hnegAbs]
  by_cases hpos : 0 < p.intVal
  · rw [if_neg hne, if_pos hpos, if_neg (by rw [hnegI]; omega),
      if_neg (by rw [hnegI]; omega), hadd, hneg]
    abel
  · rw [if_neg hne, if_neg hpos, if_neg (by rw [hnegI]; omega),
      if_pos (by rw [hnegI]; omega), hadd, hneg]
    abel

/-! ## Claim C1 -/

/-- C1, counterexample to the claim as stated: the subnormal floats are
finite and nonzero, but encode to the sentinel `max() - 8`, as does their
negation, so in the `BigNumber` backend the sum of the encodings of the
smallest positive subnormal (decimal conversion `5e-324`) and of its
negation is `2 * (max() - 8)`, not `zero_center()`. -/
theorem c1_counterexample_subnormal :
    ¬(encode_from_f64_val bigNumberEncoder (F64.subnormal ⟨5, 324⟩)
        + encode_from_f64_val bigNumberEncoder
            (F64.neg (F64.subnormal ⟨5, 324⟩))
      = bigNumberEncoder.zero_center) := by
  decide

/-- C1 (amended): for every normal (finite, nonzero, non-subnormal) 64-bit
float `v` — embedded as `F64.normal d` with nonzero decimal conversion
`d` — `encode_from_f64(v) + encode_from_f64(-v) = zero_center()` holds in
each backend: the positive encoding is the unshifted scaled magnitude and
the negative encoding is that magnitude negated plus `zero_center()`. -/
theorem c1_pos_neg_sum_zero_center (d : BigDec) (h : d.intVal ≠ 0) :
    encode_from_f64_val fieldElemEncoder (.normal d)
        + encode_from_f64_val fieldElemEncoder (F64.neg (.normal d))
      = fieldElemEncoder.zero_center
    ∧ encode_from_f64_val bigNumberEncoder (.normal d)
        + encode_from_f64_val bigNumberEncoder (F64.neg (.normal d))
      = bigNumberEncoder.zero_center :=
  ⟨c1_aux fieldElemEncoder (fun _ _ => rfl) (fun _ => rfl) d h,
   c1_aux bigNumberEncoder (fun _ _ => rfl) (fun _ => rfl) d h⟩

/-- C1 witness: the amended claim applied to `1.33` (decimal conversion
`133e-2`). -/
theorem c1_pos_neg_sum_zero_center_witness :
    encode_from_f64_val fieldElemEncoder (.normal ⟨133, 2⟩)
        + encode_from_f64_val fieldElemEncoder (F64.neg (.normal ⟨133, 2⟩))
      = fieldElemEncoder.zero_center
    ∧ encode_from_f64_val bigNumberEncoder (.normal ⟨133, 2⟩)
        + encode_from_f64_val bigNumberEncoder (F64.neg (.normal ⟨133, 2⟩))
      = bigNumberEncoder.zero_center :=
  c1_pos_neg_sum_zero_center ⟨133, 2⟩ (by decide)

/-! ## Claim C2 -/

/-- The spec's description of the normal-float algorithm, as a second
definition to compare with the source's: "double it 254 times; if the
result has more than 15 digits after the decimal point, repeatedly halve it
until at most 15 remain" (one digit of the count per halving, i.e.
`scale - 15` exact halvings of the doubled decimal when its exponent
exceeds 15); "take the resulting decimal's integer component and sign" (the
arbitrary-precision integer component of the decimal representation);
"a zero result gives zero_center(), a positive result gives from_vec
(big-endian magnitude bytes) with no zero-center offset, and a negative
result gives zero_center() - from_vec(big-endian magnitude bytes)". -/
def specNormalEncode {α : Type} (E : AttributeEncoder α) (dec : BigDec) : α :=
  let b := doubleD^[254] dec
  let b2 := halfD^[(b.scale - 15).toNat] b
  if b2.intVal = 0 then E.zero_center
  else if 0 < b2.intVal then E.from_vec (beBytesOfNat b2.intVal.natAbs)
  else E.sub E.zero_center (E.from_vec (beBytesOfNat b2.intVal.natAbs))

theorem specNormalEncode_eq {α : Type} (E : AttributeEncoder α)
    (dec : BigDec) :
    specNormalEncode E dec =
      if (halfD^[((doubleD^[254] dec).scale - 15).toNat]
            (doubleD^[254] dec)).intVal = 0 then
        E.zero_center
      else if 0 < (halfD^[((doubleD^[254] dec).scale - 15).toNat]
            (doubleD^[254] dec)).intVal then
        E.from_vec (beBytesOfNat (halfD^[((doubleD^[254] dec).scale - 15).toNat]
          (doubleD^[254] dec)).intVal.natAbs)
      else
        E.sub E.zero_center (E.from_vec (beBytesOfNat
          (halfD^[((doubleD^[254] dec).scale - 15).toNat]
            (doubleD^[254] dec)).intVal.natAbs)) :=
  rfl

theorem c2_aux {α : Type} [AddCommGroup α] (E : AttributeEncoder α)
    (hadd : ∀ a b, E.add a b = a + b) (hneg : ∀ a, E.neg a = -a)
    (hsub : ∀ a b, E.sub a b = a - b) (d : BigDec) :
    encode_from_f64_val E (.normal d) = specNormalEncode E d := by
  rw [encode_f64_normal_eq, specNormalEncode_eq]
  have hbz : BITS_IN_ZERO = 254 := rfl
  rw [hbz, halfLoop_eq_iterate]
  set p := halfD^[((doubleD^[254] d).scale - 15).toNat] (doubleD^[254] d)
  by_cases h0 : p.intVal = 0
  · rw [if_pos h0, if_pos h0]
  · rw [if_neg h0, if_neg h0]
    by_cases hpos : 0 < p.intVal
    · rw [if_pos hpos, if_pos hpos]
    · rw [if_neg hpos, if_neg hpos, hadd, hneg, hsub, neg_add_eq_sub]

/-- C2: for every normal 64-bit float (embedded by its exact
arbitrary-precision decimal conversion `d`), `encode_from_f64` follows
exactly the claimed algorithm — `BITS_IN_ZERO = 254` doublings, then the
halving loop driven by the digits-after-the-point counter seeded with the
scaled decimal's exponent, then the dispatch on the sign of the decimal's
integer component: zero gives `zero_center()`, positive gives `from_vec`
of the big-endian magnitude bytes with no offset, negative gives
`zero_center() - from_vec(bytes)` — in each backend. -/
theorem c2_normal_pipeline_refines_spec (d : BigDec) :
    encode_from_f64_val fieldElemEncoder (.normal d)
        = specNormalEncode fieldElemEncoder d
    ∧ encode_from_f64_val bigNumberEncoder (.normal d)
        = specNormalEncode bigNumberEncoder d :=
  ⟨c2_aux fieldElemEncoder (fun _ _ => rfl) (fun _ => rfl) (fun _ _ => rfl) d,
   c2_aux bigNumberEncoder (fun _ _ => rfl) (fun _ => rfl) (fun _ _ => rfl) d⟩

/-! ## Claim C8 -/

/-- C8: `encode_from_f64` maps every non-normal input to its reserved
encoding: every NaN and every subnormal value (whatever its decimal
conversion) encodes to `max() - 8`; exact zero encodes to `zero_center()`;
positive infinity encodes to `max() - 9`; negative infinity encodes to the
literal integer 8, `from(8)` — in every backend. -/
theorem c8_nonfinite_sentinels :
    ∀ (α : Type) (E : AttributeEncoder α) (d : BigDec),
      encode_from_f64 E .nan = .ok (E.sub E.max (E.ofU64 8))
      ∧ encode_from_f64 E (.subnormal d) = .ok (E.sub E.max (E.ofU64 8))
      ∧ encode_from_f64 E .zero = .ok E.zero_center
      ∧ encode_from_f64 E (.inf true) = .ok (E.sub E.max (E.ofU64 9))
      ∧ encode_from_f64 E (.inf false) = .ok (E.ofU64 8) :=
  fun _ _ _ => ⟨rfl, rfl, rfl, rfl, rfl⟩

/-! ## Claim C3 -/

/-- C3: for every 64-bit signed machine integer `v`: if `v ≥ 0` the
encoding is `zero_center() + from(v as u64)`; if `v < 0` and `v` is not
`isize::MIN` it is `zero_center() - from((-v) as u64)`; and at
`v = isize::MIN` the call still returns a value (no panic or overflow),
namely `zero_center() - from_vec(v.to_be_bytes())`, the raw big-endian
two's-complement bytes — in every backend. -/
theorem c3_encode_from_isize_cases :
    ∀ (α : Type) (E : AttributeEncoder α) (v : Int),
      (0 ≤ v →
        encode_from_isize E v = .ok (E.add E.zero_center (E.ofU64 v.toNat)))
      ∧ (v < 0 → v ≠ -(2 ^ 63) →
        encode_from_isize E v
          = .ok (E.sub E.zero_center (E.ofU64 (-v).toNat)))
      ∧ (v = -(2 ^ 63) →
        encode_from_isize E v
          = .ok (E.sub E.zero_center (E.from_vec (isizeToBeBytes v)))) := by
  intro α E v
  refine ⟨fun h0 => ?_, fun hn hm => ?_, fun hm => ?_⟩
  · unfold encode_from_isize encode_from_isize_val
    rw [if_neg (by omega)]
  · unfold encode_from_isize encode_from_isize_val
    rw [if_pos hn, if_neg hm]
  · unfold encode_from_isize encode_from_isize_val
    rw [if_pos (by rw [hm]; omega), if_pos hm]

/-- C3 witness: the `isize::MIN` case in the `BigNumber` backend. -/
theorem c3_encode_from_isize_cases_witness :
    encode_from_isize bigNumberEncoder (-(2 ^ 63))
      = .ok (bigNumberEncoder.sub bigNumberEncoder.zero_center
          (bigNumberEncoder.from_vec (isizeToBeBytes (-(2 ^ 63))))) :=
  (c3_encode_from_isize_cases Int bigNumberEncoder (-(2 ^ 63))).2.2 rfl

/-! ## Claim C4 -/

/-- Whether an `Except` result is a success (`Result::is_ok`). -/
def isOkE {α : Type} : Except String α → Bool
  | .ok _ => true
  | .error _ => false

theorem parse_base_1900 :
    parse_from_rfc3339 "1900-01-01T00:00:00.000+00:00"
      = some ⟨-2208988800, 0⟩ := rfl

/-- C4: the float, signed-integer, unsigned-integer, string-hash and null
transforms are total — they return `Ok` on every in-range input of their
declared type — while each of the two RFC3339 date transforms fails exactly
when its input string is not a well-formed RFC3339 date-time (i.e. exactly
when the parser rejects it), succeeding otherwise; all of this in every
backend. -/
theorem c4_totality_and_date_fallibility :
    ∀ (α : Type) (E : AttributeEncoder α) (v : F64) (i : Int) (u : Nat)
      (digest : Bytes → Bytes) (msg : Bytes) (s : String),
      isOkE (encode_from_f64 E v) = true
      ∧ isOkE (encode_from_isize E i) = true
      ∧ isOkE (encode_from_usize E u) = true
      ∧ isOkE (encode_from_utf8_as_hash E digest msg) = true
      ∧ isOkE (encoded_null E) = true
      ∧ (isOkE (encode_from_rfc3339_as_unixtimestamp E s) = true
          ↔ (parse_from_rfc3339 s).isSome = true)
      ∧ (isOkE (encode_from_rfc3339_as_dayssince1900 E s) = true
          ↔ (parse_from_rfc3339 s).isSome = true) := by
  intro α E v i u digest msg s
  refine ⟨rfl, rfl, rfl, rfl, rfl, ?_, ?_⟩
  · unfold encode_from_rfc3339_as_unixtimestamp
    cases hp : parse_from_rfc3339 s <;> simp [isOkE, hp]
  · unfold encode_from_rfc3339_as_dayssince1900
    cases hp : parse_from_rfc3339 s <;> simp [isOkE, hp, parse_base_1900]

/-! ## Claim C5 -/

/-- C5: the fixed-width backend's `from_vec` left-pads any byte sequence
shorter than the domain width with zero bytes (leaving the represented
value unchanged), and keeps only the leading (most-significant) bytes of
any longer sequence, silently dropping the tail; the arbitrary-precision
backend's `from_vec` applies no width normalization and interprets the
bytes as given. -/
theorem c5_from_vec_width_normalization :
    (∀ bs : Bytes, bs.length < FieldElement_SIZE →
      fieldElemEncoder.from_vec bs
          = fieldElemEncoder.from_vec
              (List.replicate (FieldElement_SIZE - bs.length) 0 ++ bs)
        ∧ fieldElemEncoder.from_vec bs = ((beNat bs : Nat) : ZMod blsOrder))
    ∧ (∀ bs : Bytes, FieldElement_SIZE < bs.length →
      fieldElemEncoder.from_vec bs
        = fieldElemEncoder.from_vec (bs.take FieldElement_SIZE))
    ∧ (∀ bs : Bytes, bigNumberEncoder.from_vec bs = (beNat bs : Int)) := by
  refine ⟨fun bs hlen => ?_, fun bs hlen => ?_, fun bs => rfl⟩
  · have hpad : normalizeBytes bs
        = List.replicate (FieldElement_SIZE - bs.length) 0 ++ bs := by
      unfold normalizeBytes
      rw [if_pos hlen]
    have hlen2 : (List.replicate (FieldElement_SIZE - bs.length) 0
        ++ bs).length = FieldElement_SIZE := by
      simp only [List.length_append, List.length_replicate]
      omega
    have hid : normalizeBytes (List.replicate (FieldElement_SIZE - bs.length)
        0 ++ bs) = List.replicate (FieldElement_SIZE - bs.length) 0 ++ bs := by
      unfold normalizeBytes
      rw [hlen2, if_neg (by omega), if_neg (by omega)]
    constructor
    · show ((beNat (normalizeBytes bs) : Nat) : ZMod blsOrder) = _
      rw [hpad]
      show _ = ((beNat (normalizeBytes _) : Nat) : ZMod blsOrder)
      rw [hid]
    · show ((beNat (normalizeBytes bs) : Nat) : ZMod blsOrder) = _
      rw [hpad, beNat_replicate_zero_append]
  · have htake : normalizeBytes bs = bs.take FieldElement_SIZE := by
      unfold normalizeBytes
      rw [if_neg (by omega), if_pos hlen]
    have hlen2 : (bs.take FieldElement_SIZE).length = FieldElement_SIZE := by
      simp only [List.length_take]
      omega
    have hid : normalizeBytes (bs.take FieldElement_SIZE)
        = bs.take FieldElement_SIZE := by
      unfold normalizeBytes
      rw [hlen2, if_neg (by omega), if_neg (by omega)]
    show ((beNat (normalizeBytes bs) : Nat) : ZMod blsOrder) = _
    rw [htake]
    show _ = ((beNat (normalizeBytes _) : Nat) : ZMod blsOrder)
    rw [hid]

/-- C5 witness: a 2-byte sequence is left-padded (value preserved) and a
49-byte sequence is truncated to its leading 48 bytes. -/
theorem c5_from_vec_width_normalization_witness :
    (fieldElemEncoder.from_vec [1, 2]
        = fieldElemEncoder.from_vec (List.replicate 46 0 ++ [1, 2])
      ∧ fieldElemEncoder.from_vec [1, 2]
        = ((beNat [1, 2] : Nat) : ZMod blsOrder))
    ∧ fieldElemEncoder.from_vec (List.replicate 49 7)
      = fieldElemEncoder.from_vec ((List.replicate 49 7).take 48)
    ∧ bigNumberEncoder.from_vec [1, 2] = (beNat [1, 2] : Int) := by
  refine ⟨?_, ?_, ?_⟩
  · have h := c5_from_vec_width_normalization.1 [1, 2] (by decide)
    simpa [FieldElement_SIZE] using h
  · have h := c5_from_vec_width_normalization.2.1 (List.replicate 49 7)
      (by simp [FieldElement_SIZE])
    simpa [FieldElement_SIZE] using h
  · exact c5_from_vec_width_normalization.2.2 [1, 2]

/-! ## Claim C6 -/

/-- C6: for every string that parses as an RFC3339 date-time, the
unix-timestamp encoding is `zero_center() + from(epoch seconds as u64)`
(in every backend); in particular the epoch string encodes to exactly
`zero_center()` and `"2018-01-26T18:30:09.453+00:00"` encodes to
`from(1516991409) + zero_center()`, in both backends. -/
theorem c6_unixtimestamp_encoding :
    (∀ (α : Type) (E : AttributeEncoder α) (s : String) (dt : RfcDateTime),
      parse_from_rfc3339 s = some dt →
      encode_from_rfc3339_as_unixtimestamp E s
        = .ok (E.add E.zero_center (E.ofU64 (u64OfInt dt.timestamp))))
    ∧ encode_from_rfc3339_as_unixtimestamp fieldElemEncoder
        "1970-01-01T00:00:00.000+00:00" = .ok fieldElemEncoder.zero_center
    ∧ encode_from_rfc3339_as_unixtimestamp bigNumberEncoder
        "1970-01-01T00:00:00.000+00:00" = .ok bigNumberEncoder.zero_center
    ∧ encode_from_rfc3339_as_unixtimestamp fieldElemEncoder
        "2018-01-26T18:30:09.453+00:00"
        = .ok (fieldElemEncoder.add (fieldElemEncoder.ofU64 1516991409)
            fieldElemEncoder.zero_center)
    ∧ encode_from_rfc3339_as_unixtimestamp bigNumberEncoder
        "2018-01-26T18:30:09.453+00:00"
        = .ok (bigNumberEncoder.add (bigNumberEncoder.ofU64 1516991409)
            bigNumberEncoder.zero_center) := by
  have hgen : ∀ (α : Type) (E : AttributeEncoder α) (s : String)
      (dt : RfcDateTime), parse_from_rfc3339 s = some dt →
      encode_from_rfc3339_as_unixtimestamp E s
        = .ok (E.add E.zero_center (E.ofU64 (u64OfInt dt.timestamp))) := by
    intro α E s dt hp
    unfold encode_from_rfc3339_as_unixtimestamp
    rw [hp]
  have hepoch : parse_from_rfc3339 "1970-01-01T00:00:00.000+00:00"
      = some ⟨0, 0⟩ := rfl
  have h2018 : parse_from_rfc3339 "2018-01-26T18:30:09.453+00:00"
      = some ⟨1516991409, 453000000⟩ := rfl
  refine ⟨hgen, ?_, ?_, ?_, ?_⟩
  · rw [hgen (ZMod blsOrder) fieldElemEncoder _ _ hepoch]
    exact congrArg Except.ok (by decide)
  · rw [hgen Int bigNumberEncoder _ _ hepoch]
    exact congrArg Except.ok (by decide)
  · rw [hgen (ZMod blsOrder) fieldElemEncoder _ _ h2018]
    exact congrArg Except.ok (by decide)
  · rw [hgen Int bigNumberEncoder _ _ h2018]
    exact congrArg Except.ok (by decide)

/-- C6 witness: the universally quantified clause applied to the 2018
string in the `BigNumber` backend. -/
theorem c6_unixtimestamp_encoding_witness :
    encode_from_rfc3339_as_unixtimestamp bigNumberEncoder
        "2018-01-26T18:30:09.453+00:00"
      = .ok (bigNumberEncoder.add bigNumberEncoder.zero_center
          (bigNumberEncoder.ofU64
            (u64OfInt (RfcDateTime.timestamp ⟨1516991409, 453000000⟩)))) :=
  c6_unixtimestamp_encoding.1 Int bigNumberEncoder
    "2018-01-26T18:30:09.453+00:00" ⟨1516991409, 453000000⟩ rfl

/-! ## Claim C7 -/

/-- C7: for every string that parses as an RFC3339 date-time, the
days-since-1900 encoding is `zero_center() + from(num_days as u64)` where
`num_days` is the whole-day difference from the reference instant
`1900-01-01T00:00:00.000+00:00` (epoch seconds `-2208988800`), in every
backend; in particular `"1982-12-20T10:45:00.000-06:00"` encodes to
`zero_center() + from(30303)` in both backends. -/
theorem c7_dayssince1900_encoding :
    (∀ (α : Type) (E : AttributeEncoder α) (s : String) (dt : RfcDateTime),
      parse_from_rfc3339 s = some dt →
      encode_from_rfc3339_as_dayssince1900 E s
        = .ok (E.add E.zero_center (E.ofU64
            (u64OfInt (numDaysBetween dt ⟨-2208988800, 0⟩)))))
    ∧ encode_from_rfc3339_as_dayssince1900 fieldElemEncoder
        "1982-12-20T10:45:00.000-06:00"
        = .ok (fieldElemEncoder.add fieldElemEncoder.zero_center
            (fieldElemEncoder.ofU64 30303))
    ∧ encode_from_rfc3339_as_dayssince1900 bigNumberEncoder
        "1982-12-20T10:45:00.000-06:00"
        = .ok (bigNumberEncoder.add bigNumberEncoder.zero_center
            (bigNumberEncoder.ofU64 30303)) := by
  have hgen : ∀ (α : Type) (E : AttributeEncoder α) (s : String)
      (dt : RfcDateTime), parse_from_rfc3339 s = some dt →
      encode_from_rfc3339_as_dayssince1900 E s
        = .ok (E.add E.zero_center (E.ofU64
            (u64OfInt (numDaysBetween dt ⟨-2208988800, 0⟩)))) := by
    intro α E s dt hp
    unfold encode_from_rfc3339_as_dayssince1900
    rw [hp, parse_base_1900]
  have h1982 : parse_from_rfc3339 "1982-12-20T10:45:00.000-06:00"
      = some ⟨409250700, 0⟩ := rfl
  refine ⟨hgen, ?_, ?_⟩
  · rw [hgen (ZMod blsOrder) fieldElemEncoder _ _ h1982]
    exact congrArg Except.ok (by decide)
  · rw [hgen Int bigNumberEncoder _ _ h1982]
    exact congrArg Except.ok (by decide)

/-- C7 witness: the universally quantified clause applied to the 1982
string in the `BigNumber` backend. -/
theorem c7_dayssince1900_encoding_witness :
    encode_from_rfc3339_as_dayssince1900 bigNumberEncoder
        "1982-12-20T10:45:00.000-06:00"
      = .ok (bigNumberEncoder.add bigNumberEncoder.zero_center
          (bigNumberEncoder.ofU64 (u64OfInt
            (numDaysBetween ⟨409250700, 0⟩ ⟨-2208988800, 0⟩)))) :=
  c7_dayssince1900_encoding.1 Int bigNumberEncoder
    "1982-12-20T10:45:00.000-06:00" ⟨409250700, 0⟩ rfl

/-! ## Claim C9 -/

theorem bigNum_ofU64_eq (w : Nat) (h : w < 2 ^ 64) :
    bigNumberEncoder.ofU64 w = (w : Int) := by
  show (beNat (natToBeFixed 8 w) : Nat) = (w : Int)
  rw [beNat_natToBeFixed]
  congr 1
  have h256 : (256 : Nat) ^ 8 = 2 ^ 64 := by norm_num
  rw [h256]
  exact Nat.mod_eq_of_lt h

theorem fieldElem_from_vec_u64 (w : Nat) (h : w < 2 ^ 64) :
    fieldElemEncoder.from_vec (natToBeFixed 8 w)
      = ((w : Nat) : ZMod blsOrder) := by
  show ((beNat (normalizeBytes (natToBeFixed 8 w)) : Nat) : ZMod blsOrder) = _
  have hlen : (natToBeFixed 8 w).length < FieldElement_SIZE := by
    rw [natToBeFixed_length]
    decide
  have hpad : normalizeBytes (natToBeFixed 8 w)
      = List.replicate (FieldElement_SIZE - (natToBeFixed 8 w).length) 0
          ++ natToBeFixed 8 w := by
    unfold normalizeBytes
    rw [if_pos hlen]
  rw [hpad, beNat_replicate_zero_append, beNat_natToBeFixed]
  congr 1
  have h256 : (256 : Nat) ^ 8 = 2 ^ 64 := by norm_num
  rw [h256]
  exact Nat.mod_eq_of_lt h

/-- C9: for every unsigned machine integer below `isize::MAX + 1`,
`encode_from_usize` agrees with `encode_from_isize` in each backend;
equivalently, for every `u64` value, `from_vec` of its 8-byte big-endian
representation coincides with the backend's direct `From<u64>`
conversion. -/
theorem c9_usize_isize_agreement :
    ∀ v w : Nat, v < 2 ^ 63 → w < 2 ^ 64 →
      (encode_from_usize fieldElemEncoder v
          = encode_from_isize fieldElemEncoder (v : Int)
        ∧ encode_from_usize bigNumberEncoder v
          = encode_from_isize bigNumberEncoder (v : Int))
      ∧ (fieldElemEncoder.from_vec (natToBeFixed 8 w)
          = fieldElemEncoder.ofU64 w
        ∧ bigNumberEncoder.from_vec (natToBeFixed 8 w)
          = bigNumberEncoder.ofU64 w) := by
  intro v w hv hw
  have hvu : (v : Nat) < 2 ^ 64 := by omega
  have hnotneg : ¬((v : Int) < 0) := by omega
  have htonat : ((v : Int)).toNat = v := by omega
  refine ⟨⟨?_, ?_⟩, ?_, ?_⟩
  · unfold encode_from_usize encode_from_isize encode_from_isize_val
    rw [if_neg hnotneg, htonat]
    exact congrArg Except.ok
      (congrArg (fieldElemEncoder.add fieldElemEncoder.zero_center)
        (fieldElem_from_vec_u64 v hvu))
  · unfold encode_from_usize encode_from_isize encode_from_isize_val
    rw [if_neg hnotneg, htonat]
    exact congrArg Except.ok
      (congrArg (bigNumberEncoder.add bigNumberEncoder.zero_center) rfl)
  · rw [fieldElem_from_vec_u64 w hw]
    rfl
  · rfl

/-- C9 witness: agreement at `v = 7`, `w = 1516991409`. -/
theorem c9_usize_isize_agreement_witness :
    (encode_from_usize fieldElemEncoder 7
        = encode_from_isize fieldElemEncoder (7 : Int)
      ∧ encode_from_usize bigNumberEncoder 7
        = encode_from_isize bigNumberEncoder (7 : Int))
    ∧ (fieldElemEncoder.from_vec (natToBeFixed 8 1516991409)
        = fieldElemEncoder.ofU64 1516991409
      ∧ bigNumberEncoder.from_vec (natToBeFixed 8 1516991409)
        = bigNumberEncoder.ofU64 1516991409) :=
  c9_usize_isize_agreement 7 1516991409 (by norm_num) (by norm_num)

/-! ## Claim C10 -/

theorem bigNum_zero_center_eq : bigNumberEncoder.zero_center = (2 : Int) ^ 254 := by
  show ((2 ^ BITS_IN_ZERO : Nat) : Int) = (2 : Int) ^ 254
  norm_num [BITS_IN_ZERO]

theorem bigNum_isize_val_eq (v : Int) (h1 : -(2 ^ 63) ≤ v) (h2 : v < 2 ^ 63) :
    encode_from_isize_val bigNumberEncoder v = 2 ^ 254 + v := by
  unfold encode_from_isize_val
  by_cases hneg : v < 0
  · by_cases hmin : v = -(2 ^ 63)
    · rw [if_pos hneg, if_pos hmin, hmin]
      have hraw : bigNumberEncoder.from_vec (isizeToBeBytes (-(2 ^ 63)))
          = ((2 ^ 63 : Nat) : Int) := by
        show (beNat (natToBeFixed 8 (u64OfInt (-(2 ^ 63)))) : Int) = _
        have hu : u64OfInt (-(2 ^ 63)) = 2 ^ 63 := by
          simp only [u64OfInt]
          omega
        rw [hu, beNat_natToBeFixed]
        norm_num
      show bigNumberEncoder.zero_center
          - bigNumberEncoder.from_vec (isizeToBeBytes (-(2 ^ 63))) = _
      rw [hraw, bigNum_zero_center_eq]
      push_cast
    · rw [if_pos hneg, if_neg hmin]
      have hx : (-v).toNat < 2 ^ 64 := by omega
      show bigNumberEncoder.zero_center
          - bigNumberEncoder.ofU64 (-v).toNat = _
      rw [bigNum_ofU64_eq _ hx, bigNum_zero_center_eq]
      omega
  · rw [if_neg hneg]
    have hx : v.toNat < 2 ^ 64 := by omega
    show bigNumberEncoder.zero_center + bigNumberEncoder.ofU64 v.toNat = _
    rw [bigNum_ofU64_eq _ hx, bigNum_zero_center_eq]
    omega

/-- C10: in the arbitrary-precision backend, `encode_from_isize(v)` is the
exact integer `2^254 + v` for every 64-bit signed machine integer `v`,
including `isize::MIN` (whose raw two's-complement bytes read as an
unsigned big-endian number equal its magnitude `2^63`, so the special-case
branch coincides with the general rule); consequently the encoding is
injective and strictly order-preserving on that backend. -/
theorem c10_bignumber_isize_affine :
    ∀ v w : Int, -(2 ^ 63) ≤ v → v < 2 ^ 63 → -(2 ^ 63) ≤ w → w < 2 ^ 63 →
      encode_from_isize_val bigNumberEncoder v = 2 ^ 254 + v
      ∧ (encode_from_isize_val bigNumberEncoder v
          = encode_from_isize_val bigNumberEncoder w → v = w)
      ∧ (v < w → encode_from_isize_val bigNumberEncoder v
          < encode_from_isize_val bigNumberEncoder w) := by
  intro v w hv1 hv2 hw1 hw2
  have hkv := bigNum_isize_val_eq v hv1 hv2
  have hkw := bigNum_isize_val_eq w hw1 hw2
  refine ⟨hkv, fun heq => ?_, fun hlt => ?_⟩
  · rw [hkv, hkw] at heq
    omega
  · rw [hkv, hkw]
    omega

/-- C10 witness: applied at `v = isize::MIN` and `w = 5`. -/
theorem c10_bignumber_isize_affine_witness :
    encode_from_isize_val bigNumberEncoder (-(2 ^ 63)) = 2 ^ 254 + -(2 ^ 63)
    ∧ (encode_from_isize_val bigNumberEncoder (-(2 ^ 63))
        = encode_from_isize_val bigNumberEncoder 5 → -(2 ^ 63) = (5 : Int))
    ∧ (-(2 ^ 63) < (5 : Int) → encode_from_isize_val bigNumberEncoder (-(2 ^ 63))
        < encode_from_isize_val bigNumberEncoder 5) :=
  c10_bignumber_isize_affine (-(2 ^ 63)) 5 (by norm_num) (by norm_num)
    (by norm_num) (by norm_num)
